import Mathlib

/-!
Verification of the windowed transaction-alerting pipeline (`src/app.py`).

The pipeline reads transaction rows, maintains 60-minute sliding-window
statistics per account (hop = 1 minute), left-joins each window snapshot
against a static watchlist, filters by a trigger predicate, attaches a
rule-based explanation string, and writes the result.

The shallow embedding below models the Python operations the pipeline uses
(string strip/split/formatting, the `float` builtin, the window assignment
of Pathway's sliding windows, list-based group/reduce and left join).
Machine floats are modelled as exact rationals; strings as Lean strings,
manipulated through their character lists.
-/

namespace FinanceBot

/-! ## Python string primitives -/

/-- Whitespace test used by Python's `str.strip`. -/
def isWS (c : Char) : Bool :=
  c = ' ' || c = '\t' || c = '\n' || c = '\r' || c = '\x0b' || c = '\x0c'

/-- Model of Python `str.strip()`: drop whitespace from both ends. -/
def pyStrip (s : String) : String :=
  String.mk (((s.data.dropWhile isWS).reverse.dropWhile isWS).reverse)

/-- Model of Python `s.split(sep, maxsplit)` on character lists: the first
argument is the number of splits still allowed; once it reaches zero the
remainder (separators included) becomes a single final chunk. -/
def splitMaxGo (sep : Char) : Nat → List Char → List Char → List (List Char)
  | _, acc, [] => [acc.reverse]
  | 0, acc, cs => [acc.reverse ++ cs]
  | n + 1, acc, c :: cs =>
      if c = sep then acc.reverse :: splitMaxGo sep n [] cs
      else splitMaxGo sep (n + 1) (c :: acc) cs

/-- Model of Python `s.split(sep, maxsplit)` for a one-character separator. -/
def pySplitMax (s : String) (sep : Char) (maxsplit : Nat) : List String :=
  (splitMaxGo sep maxsplit [] s.data).map String.mk

/-- Python `" ".join(l)`-style joining with a separator. -/
def strJoin (sep : String) : List String → String
  | [] => ""
  | [x] => x
  | x :: y :: xs => x ++ sep ++ strJoin sep (y :: xs)

/-- Lexicographic (code-point) strict order on character lists, as Python and
the Pathway engine compare strings. -/
def strLtAux : List Char → List Char → Bool
  | [], [] => false
  | [], _ :: _ => true
  | _ :: _, [] => false
  | a :: as, b :: bs =>
      if a.toNat < b.toNat then true
      else if b.toNat < a.toNat then false
      else strLtAux as bs

/-- Lexicographic strict order on strings. -/
def pyStrLt (s t : String) : Bool := strLtAux s.data t.data

/-- Binary maximum under the lexicographic string order, as used by the
`pw.reducers.max` reducer on a string column. -/
def maxStr (a b : String) : String := if pyStrLt a b then b else a

/-- Python truthiness of a nullable string: `None` and `""` are falsy. -/
def pyTruthy : Option String → Bool
  | none => false
  | some s => !(s = "")

/-- Python `x or d` for a nullable string `x` and default `d`. -/
def pyOrStr (x : Option String) (d : String) : String :=
  if pyTruthy x then (match x with | some s => s | none => "") else d

/-! ## Decimal digits, formatting and parsing -/

/-- The decimal digit character for `d < 10`. -/
def digitChar (d : Nat) : Char := Char.ofNat (48 + d)

/-- Fuel-driven most-significant-first decimal digits of a natural number
(empty for zero). -/
def decDigitsAux : Nat → Nat → List Char
  | 0, _ => []
  | f + 1, n =>
      if n = 0 then [] else decDigitsAux f (n / 10) ++ [digitChar (n % 10)]

/-- Decimal digit characters of a natural number (`['0']` for zero). -/
def natToDecChars (n : Nat) : List Char :=
  if n = 0 then ['0'] else decDigitsAux (n + 1) n

/-- Decimal string of a natural number, as Python prints an `int`. -/
def natToDecString (n : Nat) : String := String.mk (natToDecChars n)

/-- Left-pad a character list with `'0'` up to length `k`. -/
def padZeros (k : Nat) (l : List Char) : List Char :=
  List.replicate (k - l.length) '0' ++ l

/-- Value of a most-significant-first list of decimal digit characters. -/
def natOfDigits (l : List Char) : Nat :=
  l.foldl (fun a c => a * 10 + (c.toNat - 48)) 0

/-- Fixed-point rendering of `m / 10^k` with exactly `k` fractional digits,
as Python's `f"{x:.k f}"` renders the already-rounded scaled integer `m`. -/
def formatScaled (k : Nat) (m : Int) : String :=
  (if m < 0 then "-" else "")
    ++ natToDecString (m.natAbs / 10 ^ k)
    ++ "."
    ++ String.mk (padZeros k (natToDecChars (m.natAbs % 10 ^ k)))

/-- Model of Python `f"{x:.6f}"` on an exact rational: round to six decimal
places and render in fixed-point form. -/
def format6 (q : ℚ) : String := formatScaled 6 (round (q * 10 ^ 6))

/-- Model of Python `f"{x:.2f}"` on an exact rational. -/
def format2 (q : ℚ) : String := formatScaled 2 (round (q * 10 ^ 2))

/-- Leading-sign parsing: `'-'` and `'+'` are consumed, anything else kept. -/
def stripSign (cs : List Char) : Bool × List Char :=
  match cs with
  | [] => (false, [])
  | c :: rest =>
      if c = '-' then (true, rest)
      else if c = '+' then (false, rest)
      else (false, c :: rest)

/-- Numeric value `±(ip . fp) · 10^e` assembled from parsed digit groups. -/
def mkVal (neg : Bool) (ip fp : List Char) (e : Int) : ℚ :=
  (if neg then -1 else 1)
    * ((natOfDigits ip : ℚ) + (natOfDigits fp : ℚ) / 10 ^ fp.length)
    * (10 : ℚ) ^ e

/-- Optional exponent suffix (`e`/`E`, sign, digits) after the mantissa. -/
def parseExpPart (neg : Bool) (ip fp : List Char) : List Char → Option ℚ
  | [] => some (mkVal neg ip fp 0)
  | c :: cs =>
      if c = 'e' || c = 'E' then
        let p := stripSign cs
        let ed := p.2.takeWhile Char.isDigit
        let rest := p.2.dropWhile Char.isDigit
        if ed.isEmpty || !rest.isEmpty then none
        else some (mkVal neg ip fp (if p.1 then -(natOfDigits ed : Int) else (natOfDigits ed : Int)))
      else none

/-- Modelled from the Python `float` builtin on the decimal forms the
pipeline produces: optional sign, integer digits, optional fractional part,
optional exponent; whole input must be consumed (no `inf`/`nan`/underscore
forms, which never arise here). -/
def parseDecChars (cs : List Char) : Option ℚ :=
  let p := stripSign cs
  let ip := p.2.takeWhile Char.isDigit
  let cs2 := p.2.dropWhile Char.isDigit
  match cs2 with
  | '.' :: cs3 =>
      let fp := cs3.takeWhile Char.isDigit
      let cs4 := cs3.dropWhile Char.isDigit
      if ip.isEmpty && fp.isEmpty then none else parseExpPart p.1 ip fp cs4
  | _ => if ip.isEmpty then none else parseExpPart p.1 ip [] cs2

/-- Python `float(s)` on a string: the builtin ignores surrounding
whitespace, then parses a decimal form. -/
def pyFloatParse (s : String) : Option ℚ := parseDecChars (pyStrip s).data

/-! ## Exceptions and `safe_float` (src/app.py lines 92-99) -/

/-- The Python exception kinds the pipeline's code can raise. -/
inductive PyErr where
  | typeError
  | valueError
deriving DecidableEq, Repr

/-- A scalar as `safe_float` may receive it: `None`, a string column value,
or an already-numeric column value. -/
inductive PyScalar where
  | none
  | str (s : String)
  | num (q : ℚ)
deriving Repr

/-- Python `float(s)` as a fallible operation: `ValueError` on a
non-numeric string. -/
def pyFloat (s : String) : Except PyErr ℚ :=
  match pyFloatParse s with
  | some q => .ok q
  | Option.none => .error .valueError

/-- Body of `safe_float` before the `except` handler: `if x is None:
return 0.0` then `return float(str(x).strip())`. For a numeric input,
`float(str(x).strip())` returns the same value (Python `repr` of a float
round-trips through `float`), so that case is the identity. -/
def safe_float_body : PyScalar → Except PyErr ℚ
  | .none => .ok 0
  | .str s => pyFloat (pyStrip s)
  | .num q => .ok q

/-- The `safe_float` UDF with its `try/except` structure made explicit:
any exception from the body is absorbed into the default `0.0`. -/
def safe_float_run (x : PyScalar) : Except PyErr ℚ :=
  match safe_float_body x with
  | .ok v => .ok v
  | .error _ => .ok 0

/-- The value `safe_float` returns. -/
def safe_float (x : PyScalar) : ℚ :=
  match safe_float_body x with
  | .ok v => v
  | .error _ => 0

/-! ## Composite meta string (src/app.py lines 101-139) -/

/-- The `make_meta_str` UDF: `f"{t or ''}|{float(amt):.6f}|{loc or ''}|{merch or ''}|{stat or ''}"`.
For a string `t`, `t or ''` is `t` itself (`''` when `t` is empty), so the
field placeholders are the strings unchanged; `amt` arrives as the float
column `amount_f`, so `float(amt)` never raises and the `except` branch
producing `"0.0"` is dead. -/
def make_meta_str (t : String) (amt : ℚ) (loc merch stat : String) : String :=
  t ++ "|" ++ format6 amt ++ "|" ++ loc ++ "|" ++ merch ++ "|" ++ stat

/-- The `meta_get_time` UDF: `m.split("|", 4)[0] if m else ""`. -/
def meta_get_time (m : String) : String :=
  if m = "" then "" else (pySplitMax m '|' 4).headD ""

/-- The `meta_get_amount` UDF: `float(m.split("|", 4)[1])` with any
`IndexError`/`ValueError` absorbed into `0.0`. -/
def meta_get_amount (m : String) : ℚ :=
  match (pySplitMax m '|' 4).get? 1 with
  | some s => (pyFloatParse s).getD 0
  | none => 0

/-- The `meta_get_location` UDF: `m.split("|", 4)[2]`, `""` on error. -/
def meta_get_location (m : String) : String :=
  ((pySplitMax m '|' 4).get? 2).getD ""

/-- The `meta_get_merchant` UDF: `m.split("|", 4)[3]`, `""` on error. -/
def meta_get_merchant (m : String) : String :=
  ((pySplitMax m '|' 4).get? 3).getD ""

/-- The `meta_get_status` UDF: `m.split("|", 4)[4]`, `""` on error. -/
def meta_get_status (m : String) : String :=
  ((pySplitMax m '|' 4).get? 4).getD ""

/-! ## Transactions and the sliding window (src/app.py lines 144-197)

Timestamps are the parsed `parsed_time` values, modelled as integer seconds.
The `windowby` clause uses `pw.temporal.sliding(duration=60 min, hop=1 min)`:
each event at time `t` is assigned to every hop-aligned window
`[k·60, k·60 + 3600)` (seconds) containing `t`, and the `groupby/reduce`
computes, per window, the sum and count of `amount_f` and the maximum of
`tx_meta`. The model is per-account: one list of transactions of a single
`user_id`. -/

/-- One typed transaction of a single account, after parsing. -/
structure Tx where
  time : Int
  time_str : String
  amount_f : ℚ
  location : String
  merchant : String
  status : String

/-- The `tx_meta` column of `t_stream`. -/
def tx_meta (x : Tx) : String :=
  make_meta_str x.time_str x.amount_f x.location x.merchant x.status

/-- Hop-aligned keys of the sliding windows containing time `t`: the sixty
window starts `k·60` with `k·60 ≤ t < k·60 + 3600`. -/
def windowKeys (t : Int) : List Int :=
  (List.range 60).map (fun (i : Nat) => t.ediv 60 - (i : Int))

/-- Membership of time `t` in the half-open window `[k·60, k·60 + 3600)`. -/
def inWindow (k t : Int) : Bool :=
  decide (k * 60 ≤ t) && decide (t < k * 60 + 3600)

/-- The window assignment performed by `windowby`: each transaction is
replicated into every sliding window that contains its timestamp. -/
def windowAssign (txs : List Tx) : List (Int × Tx) :=
  txs.flatMap (fun x => (windowKeys x.time).map (fun k => (k, x)))

/-- The rows grouped into the window with hop index `k`. -/
def windowRows (k : Int) (txs : List Tx) : List Tx :=
  (windowAssign txs).filterMap (fun p => if p.1 = k then some p.2 else none)

/-- The `velocity_sum_1h` reducer output for window `k`. -/
def velocity_sum_1h (k : Int) (txs : List Tx) : ℚ :=
  ((windowRows k txs).map Tx.amount_f).sum

/-- The `velocity_count_1h` reducer output for window `k`. -/
def velocity_count_1h (k : Int) (txs : List Tx) : Nat :=
  (windowRows k txs).length

/-- Folding `pw.reducers.max` over a string column (`""` only for the empty
group, which Pathway never materialises). -/
def latestOf : List String → String
  | [] => ""
  | h :: rest => rest.foldl maxStr h

/-- The `latest_meta` reducer output for window `k`. -/
def latest_meta (k : Int) (txs : List Tx) : String :=
  latestOf ((windowRows k txs).map tx_meta)

/-- The exact value of the Python literal `1e-9` used at line 185 (the
double closest to `10⁻⁹` differs from it by less than `10⁻²⁵`, which no
claim depends on). -/
def epsQ : ℚ := 1 / 1000000000

/-- The `velocity_avg_1h` column: `velocity_sum_1h / (velocity_count_1h + 1e-9)`. -/
def velocity_avg_calc (s : ℚ) (c : Nat) : ℚ := s / ((c : ℚ) + epsQ)

/-- The `velocity_avg_1h` value for window `k`. -/
def velocity_avg_1h (k : Int) (txs : List Tx) : ℚ :=
  velocity_avg_calc (velocity_sum_1h k txs) (velocity_count_1h k txs)

/-! ## Watchlist join (src/app.py lines 202-227) -/

/-- One row of the static watchlist (`WatchSchema`). -/
structure WatchEntry where
  entity_id : String
  risk_level : String
  notes : String

/-- One unpacked window aggregate, the left side of the join. -/
structure AggRow where
  user_id : String
  latest_time : String
  latest_amount : ℚ
  latest_location : String
  latest_merchant : String
  latest_status : String
  velocity_avg_1h : ℚ
  velocity_count_1h : Nat

/-- The `full_context` row produced by the join's `select`, fields in the
select's order; `watchlist_risk`/`watchlist_notes` are nullable because the
join is a left outer join. -/
structure JoinedRecord where
  user_id : String
  latest_time : String
  amount : ℚ
  location : String
  merchant : String
  status : String
  velocity_avg_1h : ℚ
  velocity_count_1h : Nat
  watchlist_risk : Option String
  watchlist_notes : Option String

/-- The joined record for a window aggregate and a matching watchlist row. -/
def joinRow (a : AggRow) (w : WatchEntry) : JoinedRecord :=
  { user_id := a.user_id
    latest_time := a.latest_time
    amount := a.latest_amount
    location := a.latest_location
    merchant := a.latest_merchant
    status := a.latest_status
    velocity_avg_1h := a.velocity_avg_1h
    velocity_count_1h := a.velocity_count_1h
    watchlist_risk := some w.risk_level
    watchlist_notes := some w.notes }

/-- The null-padded joined record for a window aggregate with no watchlist
match. -/
def joinNull (a : AggRow) : JoinedRecord :=
  { joinRow a ⟨"", "", ""⟩ with watchlist_risk := none, watchlist_notes := none }

/-- The left outer join `unpacked.join(watchlist, user_id == entity_id,
how=LEFT)` restricted to one left row: one output per matching watchlist
row, or a single null-padded output when none matches. -/
def full_context_row (wl : List WatchEntry) (a : AggRow) : List JoinedRecord :=
  let ms := wl.filter (fun w => w.entity_id = a.user_id)
  if ms.isEmpty then [joinNull a] else ms.map (joinRow a)

/-- The full left outer join over all window aggregates. -/
def full_context (wl : List WatchEntry) (aggs : List AggRow) : List JoinedRecord :=
  aggs.flatMap (full_context_row wl)

/-- The re-typing step `amount_f = safe_float(amount)`; `amount` is already
a float column, so this is `safe_float` applied to a numeric scalar. -/
def amount_f (r : JoinedRecord) : ℚ := safe_float (.num r.amount)

/-- The re-typing step `velocity_avg_f = safe_float(velocity_avg_1h)`. -/
def velocity_avg_f (r : JoinedRecord) : ℚ := safe_float (.num r.velocity_avg_1h)

/-! ## Alert trigger (src/app.py lines 232-236) -/

/-- The filter predicate of `alerts_trigger`:
`(amount_f > 2000.0) | (velocity_avg_f > 5000.0) | (~watchlist_risk.is_none())`. -/
def alerts_trigger_pred (r : JoinedRecord) : Bool :=
  decide (2000 < amount_f r) || decide (5000 < velocity_avg_f r)
    || !(r.watchlist_risk.isNone)

/-- The `alerts_trigger` table: the joined records passing the filter. -/
def alerts_trigger (rows : List JoinedRecord) : List JoinedRecord :=
  rows.filter alerts_trigger_pred

/-! ## Rule-based explanation (src/app.py lines 241-257) -/

/-- The watchlist predicate `risk not in (None, "", "None")`. -/
def riskFlagged : Option String → Bool
  | none => false
  | some s => !(s = "" || s = "None")

/-- Reason fragment for the single-transaction threshold. -/
def frag_amount (a : ℚ) : String :=
  "Single transaction $" ++ format2 a ++ " exceeded threshold."

/-- Reason fragment for the velocity threshold. -/
def frag_velocity (v : ℚ) (c : Nat) : String :=
  "1h velocity $" ++ format2 v ++ " exceeded threshold across "
    ++ natToDecString c ++ " txns."

/-- Reason fragment for a watchlist hit; `f"{risk}"` prints `None` for a
null value (unreachable inside the guard) and `notes or 'N/A'` defaults a
falsy notes value. -/
def frag_watchlist (risk notes : Option String) : String :=
  "Watchlist flag: " ++ (match risk with | some s => s | none => "None")
    ++ ". Notes: " ++ pyOrStr notes "N/A"

/-- Merchant context fragment. -/
def frag_merchant (m : Option String) : String :=
  "Merchant: " ++ (match m with | some s => s | none => "None")

/-- Location context fragment. -/
def frag_location (l : Option String) : String :=
  "Location: " ++ (match l with | some s => s | none => "None")

/-- The fixed fallback sentence. -/
def frag_fallback : String := "No suspicious indicators."

/-- The `rule_based_explanation` UDF as a pure function of non-null
numerics (`amount`, `vel`, `cnt`) and nullable text fields, translating the
sequential `reasons.append` calls into list concatenation. -/
def rule_based_explanation (amount vel : ℚ) (cnt : Nat)
    (risk notes merchant location : Option String) : String :=
  let short := if 2000 < amount then "SUSPICIOUS"
    else if 5000 < vel then "SUSPICIOUS"
    else if riskFlagged risk then "SUSPICIOUS" else "OK"
  let r1 : List String := if 2000 < amount then [frag_amount amount] else []
  let r2 : List String := if 5000 < vel then [frag_velocity vel cnt] else []
  let r3 : List String := if riskFlagged risk then [frag_watchlist risk notes] else []
  let r4 : List String := if pyTruthy merchant then [frag_merchant merchant] else []
  let r5 : List String := if pyTruthy location then [frag_location location] else []
  let reasons := r1 ++ r2 ++ r3 ++ r4 ++ r5
  let reasons := if reasons.isEmpty then [frag_fallback] else reasons
  "verdict=" ++ short ++ " || " ++ strJoin " " reasons

/-- Promotion of a nullable value, as Python evaluation forces it: using
`None` where a number is required raises `TypeError`. -/
def pyForce {α : Type} : Option α → Except PyErr α
  | none => .error .typeError
  | some v => .ok v

/-- The `rule_based_explanation` UDF with Python's evaluation order and
null propagation made explicit: `amount > 2000` and `vel > 5000` raise
`TypeError` on a null operand (the verdict's `or` chain short-circuits, but
the later `if vel > 5000:` always evaluates `vel`), `int(cnt)` raises on a
null count and is only reached when `vel > 5000`, and the text fields
(`risk`, `notes`, `merchant`, `location`) are used null-safely. -/
def rule_based_explanation_run (amount vel : Option ℚ) (cnt : Option Nat)
    (risk notes merchant location : Option String) : Except PyErr String := do
  let a ← pyForce amount
  let short ←
    if 2000 < a then pure "SUSPICIOUS"
    else do
      let v ← pyForce vel
      if 5000 < v then pure "SUSPICIOUS"
      else pure (if riskFlagged risk then "SUSPICIOUS" else "OK")
  let r1 : List String := if 2000 < a then [frag_amount a] else []
  let v ← pyForce vel
  let r2 : List String ←
    if 5000 < v then do
      let c ← pyForce cnt
      pure [frag_velocity v c]
    else pure []
  let r3 : List String := if riskFlagged risk then [frag_watchlist risk notes] else []
  let r4 : List String := if pyTruthy merchant then [frag_merchant merchant] else []
  let r5 : List String := if pyTruthy location then [frag_location location] else []
  let reasons := r1 ++ r2 ++ r3 ++ r4 ++ r5
  let reasons := if reasons.isEmpty then [frag_fallback] else reasons
  pure ("verdict=" ++ short ++ " || " ++ strJoin " " reasons)

/-! ## Final output (src/app.py lines 259-281) -/

/-- The `analysis_col` expression applied to one joined record: the
pipeline passes `amount_f`, `velocity_avg_f`, the count, the nullable
watchlist columns and the (non-null) merchant/location strings. -/
def analysis_of (r : JoinedRecord) : String :=
  rule_based_explanation (amount_f r) (velocity_avg_f r) r.velocity_count_1h
    r.watchlist_risk r.watchlist_notes (some r.merchant) (some r.location)

/-- One row of `final_results`, fields in the order of the final `select`. -/
structure FinalRow where
  time : String
  user_id : String
  amount : ℚ
  velocity_avg_1h : ℚ
  watchlist_risk : Option String
  analysis : String

/-- The column names of the final `select`, in order. -/
def final_columns : List String :=
  ["time", "user_id", "amount", "velocity_avg_1h", "watchlist_risk", "analysis"]

/-- The `final_results` table written to the sink: the filtered records
projected onto the six output columns. -/
def final_results (rows : List JoinedRecord) : List FinalRow :=
  (alerts_trigger rows).map (fun r =>
    { time := r.latest_time
      user_id := r.user_id
      amount := amount_f r
      velocity_avg_1h := velocity_avg_f r
      watchlist_risk := r.watchlist_risk
      analysis := analysis_of r })

/-! ## Spec-side definitions

These follow the specification's words, to be compared with the
definitions translated from the source. -/

/-- Following the spec's words, the claimed risk condition of the trigger:
`risk_level` is present and not semantically empty
(`not in {null, "", "None"}`). -/
def risk_present_claimed : Option String → Bool
  | none => false
  | some s => !(s = "" || s = "None")

/-- Following the spec's words, the claimed trigger disjunction: latest
amount above 2000, or velocity above 5000, or a semantically non-empty
risk level. -/
def alerts_trigger_claimed (r : JoinedRecord) : Bool :=
  decide (2000 < amount_f r) || decide (5000 < velocity_avg_f r)
    || risk_present_claimed r.watchlist_risk

/-- Following the spec's words, the ordered reason selection: the list of
(guard, fragment) candidates in the contractual order amount → velocity →
watchlist → merchant → location, filtered by their guards. -/
def explanation_fragments_spec (amount vel : ℚ) (cnt : Nat)
    (risk notes merchant location : Option String) : List String :=
  (([ (decide (2000 < amount), frag_amount amount),
      (decide (5000 < vel), frag_velocity vel cnt),
      (riskFlagged risk, frag_watchlist risk notes),
      (pyTruthy merchant, frag_merchant merchant),
      (pyTruthy location, frag_location location) ] : List (Bool × String)).filter
    Prod.fst).map Prod.snd

/-- Following the spec's words, the analysis string
`"verdict=<SUSPICIOUS|OK> || <explanation>"`: the verdict is `SUSPICIOUS`
exactly when one of the three trigger predicates holds, and the
explanation joins the selected fragments, with the fixed fallback sentence
used if and only if no fragment applies. -/
def analysis_spec (amount vel : ℚ) (cnt : Nat)
    (risk notes merchant location : Option String) : String :=
  let verdict := if 2000 < amount ∨ 5000 < vel ∨ riskFlagged risk = true
    then "SUSPICIOUS" else "OK"
  let frags := explanation_fragments_spec amount vel cnt risk notes merchant location
  "verdict=" ++ verdict ++ " || "
    ++ strJoin " " (if frags = [] then [frag_fallback] else frags)

/-! ## Lemmas on the lexicographic string order -/

theorem charToNat_inj {a b : Char} (h : a.toNat = b.toNat) : a = b := by
  apply Char.eq_of_val_eq
  exact UInt32.toNat.inj h

theorem strLtAux_irrefl (l : List Char) : strLtAux l l = false := by
  induction l with
  | nil => rfl
  | cons a as ih => simp [strLtAux, ih]

theorem strLtAux_trans {a b c : List Char} (h1 : strLtAux a b = true)
    (h2 : strLtAux b c = true) : strLtAux a c = true := by
  induction a generalizing b c with
  | nil =>
    cases b with
    | nil => simp [strLtAux] at h1
    | cons b0 bs =>
      cases c with
      | nil => simp [strLtAux] at h2
      | cons c0 cs => simp [strLtAux]
  | cons a0 as ih =>
    cases b with
    | nil => simp [strLtAux] at h1
    | cons b0 bs =>
      cases c with
      | nil => simp [strLtAux] at h2
      | cons c0 cs =>
        simp only [strLtAux] at h1 h2 ⊢
        split at h1
        next hab =>
          split at h2
          next hbc => simp [show a0.toNat < c0.toNat by omega]
          next hbc =>
            split at h2
            next hcb => exact absurd h2 (by simp)
            next hcb => simp [show a0.toNat < c0.toNat by omega]
        next hab =>
          split at h1
          next hba => exact absurd h1 (by simp)
          next hba =>
            split at h2
            next hbc => simp [show a0.toNat < c0.toNat by omega]
            next hbc =>
              split at h2
              next hcb => exact absurd h2 (by simp)
              next hcb =>
                have hac : ¬ a0.toNat < c0.toNat := by omega
                have hca : ¬ c0.toNat < a0.toNat := by omega
                simp only [hac, if_false, hca]
                simpa using ih h1 h2

theorem strLtAux_false_cases {a b : List Char} (h : strLtAux a b = false) :
    a = b ∨ strLtAux b a = true := by
  induction a generalizing b with
  | nil =>
    cases b with
    | nil => exact Or.inl rfl
    | cons b0 bs => simp [strLtAux] at h
  | cons a0 as ih =>
    cases b with
    | nil => exact Or.inr (by simp [strLtAux])
    | cons b0 bs =>
      simp only [strLtAux] at h
      split at h
      next hab => exact absurd h (by simp)
      next hab =>
        split at h
        next hba =>
          exact Or.inr (by simp [strLtAux, hba])
        next hba =>
          have heq : a0 = b0 := charToNat_inj (by omega)
          rcases ih h with htail | htail
          · exact Or.inl (by rw [heq, htail])
          · refine Or.inr ?_
            simp only [strLtAux]
            simp only [heq] at hab hba ⊢
            simp [hab, htail]

theorem pyStrLt_irrefl (s : String) : pyStrLt s s = false :=
  strLtAux_irrefl s.data

theorem pyStrLt_trans {a b c : String} (h1 : pyStrLt a b = true)
    (h2 : pyStrLt b c = true) : pyStrLt a c = true :=
  strLtAux_trans h1 h2

/-- Transitivity of the reflexive order: if `a` is not below `b` and `b`
is not below `c`, then `a` is not below... stated in the direction the
fold invariant needs: `¬(a < b)` and `¬(b < c)` give `¬(a < c)`. -/
theorem pyStrLt_false_trans {a b c : String} (h1 : pyStrLt a b = false)
    (h2 : pyStrLt b c = false) : pyStrLt a c = false := by
  by_cases hac : pyStrLt a c = true
  · rcases strLtAux_false_cases (a := a.data) (b := b.data) h1 with heq | hba
    · exfalso
      have hab : a = b := by
        cases a; cases b
        exact congrArg String.mk heq
      rw [hab] at hac
      rw [hac] at h2
      exact absurd h2 (by simp)
    · have : pyStrLt b c = true := pyStrLt_trans (a := b) (b := a) (c := c) hba hac
      rw [this] at h2
      exact absurd h2 (by simp)
  · simpa using hac

/-- The fold of `maxStr` starting at `h` returns an element of `h :: rest`
that no element of `h :: rest` exceeds in the lexicographic order. -/
theorem foldl_maxStr_spec (rest : List String) (h : String) :
    List.foldl maxStr h rest ∈ h :: rest ∧
      ∀ s ∈ h :: rest, pyStrLt (List.foldl maxStr h rest) s = false := by
  induction rest generalizing h with
  | nil =>
    refine ⟨by simp, ?_⟩
    intro s hs
    simp only [List.foldl_nil]
    simp only [List.mem_singleton] at hs
    subst hs
    exact pyStrLt_irrefl s
  | cons x xs ih =>
    have step : List.foldl maxStr h (x :: xs) = List.foldl maxStr (maxStr h x) xs := by
      simp [List.foldl]
    rw [step]
    obtain ⟨hmem, hmax⟩ := ih (maxStr h x)
    have hcases : maxStr h x = h ∨ maxStr h x = x := by
      unfold maxStr
      split <;> simp
    have hnh : pyStrLt (maxStr h x) h = false := by
      unfold maxStr
      split
      next hlt =>
        by_cases hxh : pyStrLt x h = true
        · have := pyStrLt_trans hlt hxh
          rw [pyStrLt_irrefl] at this
          exact absurd this (by simp)
        · simpa using hxh
      next hlt => exact pyStrLt_irrefl h
    have hnx : pyStrLt (maxStr h x) x = false := by
      unfold maxStr
      split
      next hlt => exact pyStrLt_irrefl x
      next hlt => simpa using hlt
    have hfold_max : pyStrLt (List.foldl maxStr (maxStr h x) xs) (maxStr h x) = false :=
      hmax (maxStr h x) (by simp)
    constructor
    · simp only [List.mem_cons] at hmem
      rcases hmem with hm | hm
      · rcases hcases with hc | hc
        · simp only [List.mem_cons]
          exact Or.inl (hm.trans hc)
        · simp only [List.mem_cons]
          exact Or.inr (Or.inl (hm.trans hc))
      · simp [List.mem_cons, hm]
    · intro s hs
      simp only [List.mem_cons] at hs
      rcases hs with hs | hs | hs
      · subst hs
        exact pyStrLt_false_trans hfold_max hnh
      · subst hs
        exact pyStrLt_false_trans hfold_max hnx
      · exact hmax s (by simp [hs])

/-- The `max` reducer over a non-empty string group returns an element of
the group that no element exceeds in the lexicographic order. -/
theorem latestOf_spec (l : List String) (hne : l ≠ []) :
    latestOf l ∈ l ∧ ∀ s ∈ l, pyStrLt (latestOf l) s = false := by
  match l, hne with
  | h :: rest, _ => exact foldl_maxStr_spec rest h

/-! ## Lemmas on split, strip, takeWhile -/

theorem mk_data (s : String) : String.mk s.data = s := by
  cases s
  rfl

theorem splitMaxGo_budget_zero (sep : Char) (acc cs : List Char) :
    splitMaxGo sep 0 acc cs = [acc.reverse ++ cs] := by
  cases cs with
  | nil => simp [splitMaxGo]
  | cons c rest => simp [splitMaxGo]

theorem splitMaxGo_chunk (sep : Char) (n : Nat) (chunk rest acc : List Char)
    (hch : ∀ c ∈ chunk, ¬ c = sep) :
    splitMaxGo sep (n + 1) acc (chunk ++ sep :: rest) =
      (acc.reverse ++ chunk) :: splitMaxGo sep n [] rest := by
  induction chunk generalizing acc with
  | nil => simp [splitMaxGo]
  | cons c cs ih =>
    have hc : ¬ c = sep := hch c (by simp)
    simp only [List.cons_append, splitMaxGo, if_neg hc, List.append_eq]
    rw [ih (c :: acc) (fun d hd => hch d (by simp [hd]))]
    simp

theorem takeWhile_append_stop {p : Char → Bool} (l r : List Char) (x : Char)
    (hl : ∀ c ∈ l, p c = true) (hx : p x = false) :
    (l ++ x :: r).takeWhile p = l ∧ (l ++ x :: r).dropWhile p = x :: r := by
  induction l with
  | nil => simp [List.takeWhile, List.dropWhile, hx]
  | cons c cs ih =>
    have hc : p c = true := hl c (by simp)
    have := ih (fun d hd => hl d (by simp [hd]))
    simp [List.takeWhile, List.dropWhile, hc, this.1, this.2]

theorem takeWhile_all {p : Char → Bool} (l : List Char)
    (hl : ∀ c ∈ l, p c = true) :
    l.takeWhile p = l ∧ l.dropWhile p = [] := by
  induction l with
  | nil => simp
  | cons c cs ih =>
    have hc : p c = true := hl c (by simp)
    have := ih (fun d hd => hl d (by simp [hd]))
    simp [List.takeWhile, List.dropWhile, hc, this.1, this.2]

theorem dropWhile_false_head {p : Char → Bool} (l : List Char)
    (hl : ∀ c ∈ l, p c = false) : l.dropWhile p = l := by
  cases l with
  | nil => simp
  | cons c cs => simp [List.dropWhile, hl c (by simp)]

/-- Stripping is the identity on a string without surrounding whitespace
(in fact: without any whitespace at all). -/
theorem pyStrip_eq_self (s : String) (h : ∀ c ∈ s.data, isWS c = false) :
    pyStrip s = s := by
  unfold pyStrip
  rw [dropWhile_false_head s.data h]
  rw [dropWhile_false_head s.data.reverse (fun c hc => h c (List.mem_reverse.mp hc))]
  simp [mk_data]

/-! ## Lemmas on decimal digits -/

theorem digitChar_toNat (d : Nat) (h : d < 10) : (digitChar d).toNat = 48 + d := by
  interval_cases d <;> rfl

theorem digitChar_isDigit (d : Nat) (h : d < 10) : (digitChar d).isDigit = true := by
  interval_cases d <;> rfl

theorem natOfDigits_append (l : List Char) (c : Char) :
    natOfDigits (l ++ [c]) = natOfDigits l * 10 + (c.toNat - 48) := by
  simp [natOfDigits, List.foldl_append]

theorem decDigitsAux_value (f : Nat) : ∀ n, n ≤ f → natOfDigits (decDigitsAux f n) = n := by
  induction f with
  | zero =>
    intro n hn
    interval_cases n
    rfl
  | succ f ih =>
    intro n hn
    by_cases h0 : n = 0
    · subst h0
      rfl
    · have hdivlt : n / 10 < n := Nat.div_lt_self (Nat.pos_of_ne_zero h0) (by omega)
      have hstep : decDigitsAux (f + 1) n = decDigitsAux f (n / 10) ++ [digitChar (n % 10)] := by
        simp [decDigitsAux, h0]
      rw [hstep, natOfDigits_append, ih (n / 10) (by omega),
        digitChar_toNat (n % 10) (Nat.mod_lt n (by omega))]
      omega

theorem decDigitsAux_bounds (f : Nat) :
    ∀ n, ∀ c ∈ decDigitsAux f n, 48 ≤ c.toNat ∧ c.toNat ≤ 57 := by
  induction f with
  | zero =>
    intro n c hc
    simp [decDigitsAux] at hc
  | succ f ih =>
    intro n c hc
    by_cases h0 : n = 0
    · subst h0
      simp [decDigitsAux] at hc
    · simp only [decDigitsAux, if_neg h0, List.mem_append, List.mem_singleton] at hc
      rcases hc with hc | hc
      · exact ih (n / 10) c hc
      · subst hc
        rw [digitChar_toNat (n % 10) (Nat.mod_lt n (by omega))]
        omega

theorem decDigitsAux_length (f : Nat) :
    ∀ n d, n < 10 ^ d → (decDigitsAux f n).length ≤ d := by
  induction f with
  | zero =>
    intro n d _
    simp [decDigitsAux]
  | succ f ih =>
    intro n d hn
    by_cases h0 : n = 0
    · subst h0
      simp [decDigitsAux]
    · have hd : 1 ≤ d := by
        by_contra hcon
        have : d = 0 := by omega
        subst this
        simp at hn
        omega
      have hdiv : n / 10 < 10 ^ (d - 1) := by
        have h10 : (10 : Nat) ^ d = 10 ^ (d - 1) * 10 := by
          conv_lhs => rw [show d = (d - 1) + 1 by omega]
          ring
        rw [Nat.div_lt_iff_lt_mul (by omega)]
        omega
      simp only [decDigitsAux, if_neg h0, List.length_append, List.length_singleton]
      have := ih (n / 10) (d - 1) hdiv
      omega

theorem natToDecChars_value (n : Nat) : natOfDigits (natToDecChars n) = n := by
  unfold natToDecChars
  by_cases h0 : n = 0
  · subst h0
    rfl
  · rw [if_neg h0]
    exact decDigitsAux_value (n + 1) n (by omega)

theorem natToDecChars_bounds (n : Nat) :
    ∀ c ∈ natToDecChars n, 48 ≤ c.toNat ∧ c.toNat ≤ 57 := by
  unfold natToDecChars
  by_cases h0 : n = 0
  · subst h0
    intro c hc
    simp at hc
    subst hc
    refine ⟨by decide, by decide⟩
  · rw [if_neg h0]
    exact decDigitsAux_bounds (n + 1) n

theorem natToDecChars_ne_nil (n : Nat) : natToDecChars n ≠ [] := by
  unfold natToDecChars
  by_cases h0 : n = 0
  · simp [h0]
  · rw [if_neg h0]
    have h1 : 1 ≤ n := Nat.pos_of_ne_zero h0
    match n, h1 with
    | m + 1, _ =>
      simp [decDigitsAux]

theorem natToDecChars_length_le (n d : Nat) (hd : 1 ≤ d) (hn : n < 10 ^ d) :
    (natToDecChars n).length ≤ d := by
  unfold natToDecChars
  by_cases h0 : n = 0
  · simp [h0]
    omega
  · rw [if_neg h0]
    exact decDigitsAux_length (n + 1) n d hn

theorem natOfDigits_padZeros (k : Nat) (l : List Char) :
    natOfDigits (padZeros k l) = natOfDigits l := by
  unfold padZeros natOfDigits
  generalize k - l.length = j
  induction j with
  | zero => simp
  | succ j ih =>
    rw [List.replicate_succ]
    simpa using ih

theorem padZeros_bounds (k : Nat) (l : List Char)
    (hl : ∀ c ∈ l, 48 ≤ c.toNat ∧ c.toNat ≤ 57) :
    ∀ c ∈ padZeros k l, 48 ≤ c.toNat ∧ c.toNat ≤ 57 := by
  intro c hc
  unfold padZeros at hc
  rw [List.mem_append] at hc
  rcases hc with hc | hc
  · have := List.eq_of_mem_replicate hc
    subst this
    exact ⟨by decide, by decide⟩
  · exact hl c hc

theorem padZeros_length (k : Nat) (l : List Char) (h : l.length ≤ k) :
    (padZeros k l).length = k := by
  unfold padZeros
  simp
  omega

/-- A character with a decimal-digit code is a digit and is none of the
special characters the parser and the splitter treat specially. -/
theorem digit_code_props (c : Char) (h : 48 ≤ c.toNat ∧ c.toNat ≤ 57) :
    c.isDigit = true ∧ ¬ c = '|' ∧ ¬ c = '-' ∧ ¬ c = '+' ∧ ¬ c = '.'
      ∧ ¬ c = 'e' ∧ ¬ c = 'E' ∧ isWS c = false := by
  have hd : c.isDigit = true := by
    simp only [Char.isDigit, Bool.and_eq_true, decide_eq_true_eq]
    exact ⟨h.1, h.2⟩
  refine ⟨hd, ?_, ?_, ?_, ?_, ?_, ?_, ?_⟩
  · intro hc
    subst hc
    exact absurd h (by decide)
  · intro hc
    subst hc
    exact absurd h (by decide)
  · intro hc
    subst hc
    exact absurd h (by decide)
  · intro hc
    subst hc
    exact absurd h (by decide)
  · intro hc
    subst hc
    exact absurd h (by decide)
  · intro hc
    subst hc
    exact absurd h (by decide)
  · have h1 : ¬ c = ' ' := fun hc => absurd h (by subst hc; decide)
    have h2 : ¬ c = '\t' := fun hc => absurd h (by subst hc; decide)
    have h3 : ¬ c = '\n' := fun hc => absurd h (by subst hc; decide)
    have h4 : ¬ c = '\r' := fun hc => absurd h (by subst hc; decide)
    have h5 : ¬ c = '\x0b' := fun hc => absurd h (by subst hc; decide)
    have h6 : ¬ c = '\x0c' := fun hc => absurd h (by subst hc; decide)
    simp [isWS, h1, h2, h3, h4, h5, h6]

/-! ## Round trip of fixed-point formatting through the float parser -/

theorem parse_formatScaled (k : Nat) (hk : 1 ≤ k) (m : Int) :
    parseDecChars (formatScaled k m).data = some ((m : ℚ) / 10 ^ k) := by
  have hpow : 0 < 10 ^ k := Nat.pos_pow_of_pos k (by omega)
  have hip_bounds : ∀ c ∈ natToDecChars (m.natAbs / 10 ^ k), 48 ≤ c.toNat ∧ c.toNat ≤ 57 :=
    natToDecChars_bounds _
  have hfp_bounds : ∀ c ∈ padZeros k (natToDecChars (m.natAbs % 10 ^ k)),
      48 ≤ c.toNat ∧ c.toNat ≤ 57 :=
    padZeros_bounds _ _ (natToDecChars_bounds _)
  have hip_digit : ∀ c ∈ natToDecChars (m.natAbs / 10 ^ k), c.isDigit = true :=
    fun c hc => (digit_code_props c (hip_bounds c hc)).1
  have hfp_digit : ∀ c ∈ padZeros k (natToDecChars (m.natAbs % 10 ^ k)), c.isDigit = true :=
    fun c hc => (digit_code_props c (hfp_bounds c hc)).1
  have hdata : (formatScaled k m).data =
      (if m < 0 then ['-'] else []) ++ (natToDecChars (m.natAbs / 10 ^ k)
        ++ '.' :: padZeros k (natToDecChars (m.natAbs % 10 ^ k))) := by
    unfold formatScaled natToDecString
    by_cases hm : m < 0 <;> simp [hm, String.data_append]
  have htake := takeWhile_append_stop (p := Char.isDigit)
    (natToDecChars (m.natAbs / 10 ^ k)) (padZeros k (natToDecChars (m.natAbs % 10 ^ k)))
    '.' hip_digit (by decide)
  have hfp_take := takeWhile_all (p := Char.isDigit)
    (padZeros k (natToDecChars (m.natAbs % 10 ^ k))) hfp_digit
  have hne : natToDecChars (m.natAbs / 10 ^ k) ≠ [] := natToDecChars_ne_nil _
  have hstrip : stripSign ((if m < 0 then ['-'] else []) ++ (natToDecChars (m.natAbs / 10 ^ k)
      ++ '.' :: padZeros k (natToDecChars (m.natAbs % 10 ^ k)))) =
      (decide (m < 0), natToDecChars (m.natAbs / 10 ^ k)
        ++ '.' :: padZeros k (natToDecChars (m.natAbs % 10 ^ k))) := by
    by_cases hm : m < 0
    · simp [hm, stripSign]
    · have hdec : decide (m < 0) = false := by simp [hm]
      rw [if_neg hm, hdec, List.nil_append]
      cases hcase : natToDecChars (m.natAbs / 10 ^ k) with
      | nil => exact absurd hcase hne
      | cons c0 crest =>
        have hbounds : 48 ≤ c0.toNat ∧ c0.toNat ≤ 57 := by
          apply hip_bounds
          rw [hcase]
          simp
        obtain ⟨_, _, hminus, hplus, _, _, _, _⟩ := digit_code_props c0 hbounds
        simp [stripSign, hminus, hplus]
  have hvalfp : natOfDigits (padZeros k (natToDecChars (m.natAbs % 10 ^ k))) = m.natAbs % 10 ^ k := by
    rw [natOfDigits_padZeros, natToDecChars_value]
  have hlenfp : (padZeros k (natToDecChars (m.natAbs % 10 ^ k))).length = k :=
    padZeros_length k _ (natToDecChars_length_le _ k hk (Nat.mod_lt _ hpow))
  rw [hdata]
  unfold parseDecChars
  rw [hstrip]
  simp only [htake.1, htake.2]
  simp only [hfp_take.1, hfp_take.2]
  have hempty : (natToDecChars (m.natAbs / 10 ^ k)).isEmpty = false := by
    cases hcase : natToDecChars (m.natAbs / 10 ^ k) with
    | nil => exact absurd hcase hne
    | cons c0 crest => rfl
  rw [hempty]
  simp only [Bool.false_and, Bool.false_eq_true, if_false]
  simp only [parseExpPart]
  congr 1
  unfold mkVal
  rw [natToDecChars_value, hvalfp, hlenfp, zpow_zero, mul_one]
  have harith : ((m.natAbs / 10 ^ k : ℕ) : ℚ) + ((m.natAbs % 10 ^ k : ℕ) : ℚ) / 10 ^ k
      = (m.natAbs : ℚ) / 10 ^ k := by
    have hd := Nat.div_add_mod m.natAbs (10 ^ k)
    have hq : ((10 : ℚ) ^ k) ≠ 0 := by positivity
    field_simp
    have : ((m.natAbs / 10 ^ k : ℕ) : ℚ) * 10 ^ k + ((m.natAbs % 10 ^ k : ℕ) : ℚ)
        = ((10 ^ k * (m.natAbs / 10 ^ k) + m.natAbs % 10 ^ k : ℕ) : ℚ) := by
      push_cast
      ring
    rw [this, hd]
  rw [harith]
  have habs : ((m.natAbs : ℚ)) = |(m : ℚ)| := by
    rw [Int.cast_natAbs, Int.cast_abs]
  by_cases hm : m < 0
  · have hdec : decide (m < 0) = true := by simp [hm]
    rw [hdec, if_pos rfl, habs, abs_of_neg (by exact_mod_cast hm)]
    ring
  · have hdec : decide (m < 0) = false := by simp [hm]
    rw [hdec]
    simp only [Bool.false_eq_true, if_false]
    rw [habs, abs_of_nonneg (by exact_mod_cast not_lt.mp hm)]
    ring

/-- Every character of a fixed-point rendering is a digit, `'-'` or `'.'`;
in particular none is whitespace and none is the `'|'` delimiter. -/
theorem formatScaled_chars (k : Nat) (m : Int) :
    ∀ c ∈ (formatScaled k m).data, isWS c = false ∧ ¬ c = '|' := by
  intro c hc
  have hdata : (formatScaled k m).data =
      (if m < 0 then ['-'] else []) ++ (natToDecChars (m.natAbs / 10 ^ k)
        ++ '.' :: padZeros k (natToDecChars (m.natAbs % 10 ^ k))) := by
    unfold formatScaled natToDecString
    by_cases hm : m < 0 <;> simp [hm, String.data_append]
  rw [hdata] at hc
  simp only [List.mem_append, List.mem_cons] at hc
  rcases hc with hc | hc | hc | hc
  · by_cases hm : m < 0
    · rw [if_pos hm] at hc
      simp only [List.mem_singleton] at hc
      subst hc
      exact ⟨by decide, by decide⟩
    · rw [if_neg hm] at hc
      simp at hc
  · have := digit_code_props c (natToDecChars_bounds _ c hc)
    exact ⟨this.2.2.2.2.2.2.2, this.2.1⟩
  · subst hc
    exact ⟨by decide, by decide⟩
  · have := digit_code_props c (padZeros_bounds _ _ (natToDecChars_bounds _) c hc)
    exact ⟨this.2.2.2.2.2.2.2, this.2.1⟩

/-- Feeding a fixed-point rendering to Python's `float` recovers the scaled
value exactly. -/
theorem pyFloatParse_formatScaled (k : Nat) (hk : 1 ≤ k) (m : Int) :
    pyFloatParse (formatScaled k m) = some ((m : ℚ) / 10 ^ k) := by
  unfold pyFloatParse
  rw [pyStrip_eq_self _ (fun c hc => (formatScaled_chars k m c hc).1)]
  exact parse_formatScaled k hk m

/-! ## Splitting the composite meta string -/

theorem pySplitMax_five (t u loc merch stat : String)
    (ht : ∀ c ∈ t.data, ¬ c = '|') (hu : ∀ c ∈ u.data, ¬ c = '|')
    (hl : ∀ c ∈ loc.data, ¬ c = '|') (hm : ∀ c ∈ merch.data, ¬ c = '|') :
    pySplitMax (t ++ "|" ++ u ++ "|" ++ loc ++ "|" ++ merch ++ "|" ++ stat) '|' 4
      = [t, u, loc, merch, stat] := by
  unfold pySplitMax
  have hdata : (t ++ "|" ++ u ++ "|" ++ loc ++ "|" ++ merch ++ "|" ++ stat).data
      = t.data ++ '|' :: (u.data ++ '|' :: (loc.data ++ '|' :: (merch.data ++ '|' :: stat.data))) := by
    simp [String.data_append]
  rw [hdata]
  rw [(by norm_num : (4 : Nat) = 3 + 1), splitMaxGo_chunk '|' 3 t.data _ [] ht]
  rw [(by norm_num : (3 : Nat) = 2 + 1), splitMaxGo_chunk '|' 2 u.data _ [] hu]
  rw [(by norm_num : (2 : Nat) = 1 + 1), splitMaxGo_chunk '|' 1 loc.data _ [] hl]
  rw [(by norm_num : (1 : Nat) = 0 + 1), splitMaxGo_chunk '|' 0 merch.data _ [] hm]
  rw [splitMaxGo_budget_zero]
  simp [mk_data]

/-- The composite key built by `make_meta_str` unpacks to the original
fields through the five `meta_get_*` functions for every amount: the
timestamp, location, merchant and status strings come back exactly, and
the amount comes back as its 6-decimal rounding `round(q·10⁶)/10⁶`. The
timestamp, location and merchant must not contain the `'|'` delimiter,
while the status may, because the split is limited to four splits. -/
theorem meta_roundtrip (t loc merch stat : String) (q : ℚ)
    (ht : ∀ c ∈ t.data, ¬ c = '|') (hl : ∀ c ∈ loc.data, ¬ c = '|')
    (hm : ∀ c ∈ merch.data, ¬ c = '|') :
    meta_get_time (make_meta_str t q loc merch stat) = t ∧
    meta_get_amount (make_meta_str t q loc merch stat)
      = ((round (q * 10 ^ 6) : ℤ) : ℚ) / 10 ^ 6 ∧
    meta_get_location (make_meta_str t q loc merch stat) = loc ∧
    meta_get_merchant (make_meta_str t q loc merch stat) = merch ∧
    meta_get_status (make_meta_str t q loc merch stat) = stat := by
  have hfmt : format6 q = formatScaled 6 (round (q * 10 ^ 6)) := rfl
  have hfchars : ∀ c ∈ (format6 q).data, ¬ c = '|' := by
    rw [hfmt]
    exact fun c hc => (formatScaled_chars 6 (round (q * 10 ^ 6)) c hc).2
  have hsplit : pySplitMax (make_meta_str t q loc merch stat) '|' 4
      = [t, format6 q, loc, merch, stat] := by
    unfold make_meta_str
    exact pySplitMax_five t (format6 q) loc merch stat ht hfchars hl hm
  have hne : ¬ make_meta_str t q loc merch stat = "" := by
    intro h
    have hd := congrArg String.data h
    unfold make_meta_str at hd
    simp [String.data_append] at hd
  refine ⟨?_, ?_, ?_, ?_, ?_⟩
  · unfold meta_get_time
    rw [if_neg hne, hsplit]
    rfl
  · unfold meta_get_amount
    rw [hsplit]
    simp only [List.get?_eq_getElem?]
    show (pyFloatParse (format6 q)).getD 0 = ((round (q * 10 ^ 6) : ℤ) : ℚ) / 10 ^ 6
    rw [hfmt, pyFloatParse_formatScaled 6 (by norm_num) (round (q * 10 ^ 6))]
    rfl
  · unfold meta_get_location
    rw [hsplit]
    rfl
  · unfold meta_get_merchant
    rw [hsplit]
    rfl
  · unfold meta_get_status
    rw [hsplit]
    rfl

/-- When the amount is an integer multiple of `10⁻⁶`, the 6-decimal
rounding is the identity and the composite-key round trip recovers it
exactly. -/
theorem meta_roundtrip_exact (t loc merch stat : String) (q : ℚ) (mi : ℤ)
    (hq : q * 10 ^ 6 = (mi : ℚ))
    (ht : ∀ c ∈ t.data, ¬ c = '|') (hl : ∀ c ∈ loc.data, ¬ c = '|')
    (hm : ∀ c ∈ merch.data, ¬ c = '|') :
    meta_get_time (make_meta_str t q loc merch stat) = t ∧
    meta_get_amount (make_meta_str t q loc merch stat) = q ∧
    meta_get_location (make_meta_str t q loc merch stat) = loc ∧
    meta_get_merchant (make_meta_str t q loc merch stat) = merch ∧
    meta_get_status (make_meta_str t q loc merch stat) = stat := by
  have h := meta_roundtrip t loc merch stat q ht hl hm
  have hval : ((round (q * 10 ^ 6) : ℤ) : ℚ) / 10 ^ 6 = q := by
    rw [hq, round_intCast, ← hq]
    field_simp
  exact ⟨h.1, by rw [h.2.1, hval], h.2.2.1, h.2.2.2.1, h.2.2.2.2⟩

/-! ## Window assignment lemmas -/

theorem mem_windowKeys (k t : Int) :
    k ∈ windowKeys t ↔ (k * 60 ≤ t ∧ t < k * 60 + 3600) := by
  have hA : t.ediv 60 * 60 ≤ t :=
    (Int.le_ediv_iff_mul_le (by norm_num : (0 : Int) < 60)).mp le_rfl
  have hB : t < (t.ediv 60 + 1) * 60 := Int.lt_ediv_add_one_mul_self t (by norm_num)
  unfold windowKeys
  rw [List.mem_map]
  constructor
  · rintro ⟨i, hi, rfl⟩
    rw [List.mem_range] at hi
    constructor
    · omega
    · omega
  · rintro ⟨h1, h2⟩
    refine ⟨(t.ediv 60 - k).toNat, ?_, ?_⟩
    · rw [List.mem_range]
      omega
    · omega

theorem windowKeys_nodup (t : Int) : (windowKeys t).Nodup := by
  unfold windowKeys
  have hinj : Function.Injective (fun (i : Nat) => t.ediv 60 - (i : Int)) := by
    intro a b h
    simp only at h
    omega
  rw [List.nodup_map_iff hinj]
  exact List.nodup_range 60

theorem filterMap_keyed {α : Type} (x : α) (k : Int) (l : List Int) (hnd : l.Nodup) :
    l.filterMap (fun k2 => if k2 = k then some x else none)
      = if k ∈ l then [x] else [] := by
  induction l with
  | nil => simp
  | cons a as ih =>
    rw [List.nodup_cons] at hnd
    by_cases hak : a = k
    · subst hak
      have hnot : ¬ a ∈ as := hnd.1
      have : as.filterMap (fun k2 => if k2 = a then some x else none) = [] := by
        rw [List.filterMap_eq_nil_iff]
        intro k2 hk2
        rw [if_neg (by rintro rfl; exact hnot hk2)]
      simp [List.filterMap_cons, this]
    · have hka : ¬ k = a := fun h => hak h.symm
      have := ih hnd.2
      simp only [List.filterMap_cons, if_neg hak, this]
      simp [List.mem_cons, hka]

/-- The group of rows Pathway collects for window `k` is exactly the set of
transactions whose timestamp lies in the half-open interval
`[k·60, k·60 + 3600)` — membership in the window is decided by the
interval alone, and a transaction is counted at most once per window. -/
theorem windowRows_eq_filter (k : Int) (txs : List Tx) :
    windowRows k txs = txs.filter (fun x => inWindow k x.time) := by
  induction txs with
  | nil => rfl
  | cons x xs ih =>
    unfold windowRows windowAssign
    unfold windowRows windowAssign at ih
    simp only [List.flatMap_cons, List.filterMap_append]
    have hhead : ((windowKeys x.time).map (fun k2 => (k2, x))).filterMap
        (fun p => if p.1 = k then some p.2 else none)
        = if k ∈ windowKeys x.time then [x] else [] := by
      rw [List.filterMap_map]
      exact filterMap_keyed x k _ (windowKeys_nodup _)
    rw [hhead, ih]
    by_cases hmem : k ∈ windowKeys x.time
    · have hwin : inWindow k x.time = true := by
        rw [mem_windowKeys] at hmem
        unfold inWindow
        simp [hmem.1, hmem.2]
      simp [hmem, List.filter_cons, hwin]
    · have hwin : inWindow k x.time = false := by
        rw [mem_windowKeys] at hmem
        unfold inWindow
        rcases not_and_or.mp hmem with h | h
        · simp [h]
        · simp [h]
      simp [hmem, List.filter_cons, hwin]

/-! ## Join lemmas -/

theorem filter_key_len_le_one (wl : List WatchEntry) (u : String)
    (hnd : (wl.map WatchEntry.entity_id).Nodup) :
    (wl.filter (fun w => w.entity_id = u)).length ≤ 1 := by
  induction wl with
  | nil => simp
  | cons w ws ih =>
    rw [List.map_cons, List.nodup_cons] at hnd
    by_cases hw : w.entity_id = u
    · rw [List.filter_cons_of_pos (by simp [hw])]
      have hrest : ws.filter (fun w2 => w2.entity_id = u) = [] := by
        rw [List.filter_eq_nil_iff]
        intro w2 hw2
        simp only [decide_eq_true_eq]
        intro heq
        exact hnd.1 (by
          rw [hw, ← heq]
          exact List.mem_map_of_mem WatchEntry.entity_id hw2)
      simp [hrest]
    · rw [List.filter_cons_of_neg (by simp [hw])]
      exact ih hnd.2

theorem filter_key_single (wl : List WatchEntry) (u : String)
    (hnd : (wl.map WatchEntry.entity_id).Nodup)
    (w : WatchEntry) (hw : w ∈ wl) (heq : w.entity_id = u) :
    wl.filter (fun w2 => w2.entity_id = u) = [w] := by
  induction wl with
  | nil => simp at hw
  | cons w0 ws ih =>
    rw [List.map_cons, List.nodup_cons] at hnd
    rw [List.mem_cons] at hw
    rcases hw with hw | hw
    · subst hw
      rw [List.filter_cons_of_pos (by simp [heq])]
      have hrest : ws.filter (fun w2 => w2.entity_id = u) = [] := by
        rw [List.filter_eq_nil_iff]
        intro w2 hw2
        simp only [decide_eq_true_eq]
        intro heq2
        exact hnd.1 (by
          rw [heq, ← heq2]
          exact List.mem_map_of_mem WatchEntry.entity_id hw2)
      rw [hrest]
    · have hne0 : ¬ w0.entity_id = u := by
        intro h0
        apply hnd.1
        rw [h0, ← heq]
        exact List.mem_map_of_mem WatchEntry.entity_id hw
      rw [List.filter_cons_of_neg (by simp [hne0])]
      exact ih hnd.2 hw

/-! ## Rule-engine lemmas -/

/-- The sequentially built explanation of the implementation coincides with
the specification's ordered fragment selection. -/
theorem rule_explanation_eq_spec (amount vel : ℚ) (cnt : Nat)
    (risk notes merchant location : Option String) :
    rule_based_explanation amount vel cnt risk notes merchant location
      = analysis_spec amount vel cnt risk notes merchant location := by
  unfold rule_based_explanation analysis_spec explanation_fragments_spec
  by_cases h1 : 2000 < amount <;> by_cases h2 : 5000 < vel <;>
    by_cases h3 : riskFlagged risk = true <;>
    by_cases h4 : pyTruthy merchant = true <;>
    by_cases h5 : pyTruthy location = true <;>
    simp [h1, h2, h3, h4, h5, strJoin]

/-- With non-null numeric arguments the explanation UDF never raises and
agrees with its pure description, whatever the (possibly null) text
fields are. -/
theorem rule_run_eq_pure (a v : ℚ) (c : Nat)
    (risk notes merchant location : Option String) :
    rule_based_explanation_run (some a) (some v) (some c) risk notes merchant location
      = .ok (rule_based_explanation a v c risk notes merchant location) := by
  unfold rule_based_explanation_run rule_based_explanation pyForce
  by_cases h1 : 2000 < a <;> by_cases h2 : 5000 < v <;>
    simp [h1, h2, Bind.bind, Except.bind, pure, Except.pure]

/-! ## Velocity lemmas -/

theorem velocity_avg_calc_zero : velocity_avg_calc 0 0 = 0 := by
  unfold velocity_avg_calc
  exact zero_div _

theorem velocity_denominator_pos (c : Nat) : (0 : ℚ) < (c : ℚ) + epsQ := by
  have hc : (0 : ℚ) ≤ (c : ℚ) := Nat.cast_nonneg c
  have he : (0 : ℚ) < epsQ := by
    unfold epsQ
    norm_num
  linarith

theorem velocity_avg_calc_bounds (s : ℚ) (c : Nat) (hc : 1 ≤ c) (hs : 0 ≤ s) :
    velocity_avg_calc s c ≤ s / c ∧ s / c - s * epsQ ≤ velocity_avg_calc s c := by
  have hc1 : (1 : ℚ) ≤ (c : ℚ) := by exact_mod_cast hc
  have hcpos : (0 : ℚ) < (c : ℚ) := by linarith
  have he : (0 : ℚ) < epsQ := by
    unfold epsQ
    norm_num
  have hce : (0 : ℚ) < (c : ℚ) + epsQ := by linarith
  unfold velocity_avg_calc
  constructor
  · rw [div_le_div_iff₀ hce hcpos]
    nlinarith
  · have key : s / (c : ℚ) - s / ((c : ℚ) + epsQ) ≤ s * epsQ := by
      rw [div_sub_div _ _ hcpos.ne' hce.ne']
      have hnum : s * ((c : ℚ) + epsQ) - (c : ℚ) * s = s * epsQ := by ring
      rw [hnum]
      apply div_le_self (mul_nonneg hs he.le)
      nlinarith
    linarith

/-! ## safe_float lemmas -/

/-- The UDF `safe_float` never propagates an exception; `None` and unparseable
strings yield exactly `0.0`, a parseable (stripped) string yields its
parsed value, and a numeric input passes through unchanged. -/
theorem safe_float_props :
    (∀ x : PyScalar, safe_float_run x = .ok (safe_float x)) ∧
    safe_float .none = 0 ∧
    (∀ s : String, safe_float (.str s) = (pyFloatParse (pyStrip s)).getD 0) ∧
    (∀ q : ℚ, safe_float (.num q) = q) := by
  refine ⟨?_, rfl, ?_, fun q => rfl⟩
  · intro x
    cases x with
    | none => rfl
    | num q => rfl
    | str s =>
      simp only [safe_float_run, safe_float, safe_float_body, pyFloat]
      cases pyFloatParse (pyStrip s) <;> rfl
  · intro s
    simp only [safe_float, safe_float_body, pyFloat]
    cases pyFloatParse (pyStrip s) <;> rfl

/-! ## Concrete records used by the claim theorems -/

/-- A joined record whose amount and velocity are far below the thresholds
and whose watchlist match carries an empty `risk_level` (a watchlist CSV
row with a blank risk field). -/
def exEmptyRisk : JoinedRecord :=
  { user_id := "u1"
    latest_time := "2024-01-01T10:00:00"
    amount := 100
    location := ""
    merchant := ""
    status := ""
    velocity_avg_1h := 100
    velocity_count_1h := 1
    watchlist_risk := some ""
    watchlist_notes := some "" }

/-- A joined record that alerts through the single-transaction threshold. -/
def exAmountAlert : JoinedRecord :=
  { user_id := "u101"
    latest_time := "2024-01-01T10:30:00"
    amount := 2500
    location := ""
    merchant := ""
    status := "ok"
    velocity_avg_1h := 100
    velocity_count_1h := 1
    watchlist_risk := none
    watchlist_notes := none }

/-- A transaction of amount 999 at a fixed timestamp. -/
def tx999 : Tx :=
  { time := 0
    time_str := "2024-01-01T10:00:00"
    amount_f := 999
    location := "L"
    merchant := "M"
    status := "S" }

/-- A transaction identical to `tx999` but of amount 1000. -/
def tx1000 : Tx := { tx999 with amount_f := 1000 }

theorem exEmptyRisk_trigger : alerts_trigger_pred exEmptyRisk = true := by
  unfold alerts_trigger_pred exEmptyRisk
  simp

theorem exEmptyRisk_not_claimed : alerts_trigger_claimed exEmptyRisk = false := by
  have ha : amount_f exEmptyRisk = 100 := rfl
  have hv : velocity_avg_f exEmptyRisk = 100 := rfl
  have h1 : ¬ ((2000 : ℚ) < 100) := by norm_num
  have h2 : ¬ ((5000 : ℚ) < 100) := by norm_num
  unfold alerts_trigger_claimed
  rw [ha, hv]
  simp only [h1, h2, decide_eq_false, Bool.false_or]
  rfl

theorem exEmptyRisk_analysis :
    analysis_of exEmptyRisk = "verdict=OK || No suspicious indicators." := by
  have h1 : ¬ ((2000 : ℚ) < 100) := by norm_num
  have h2 : ¬ ((5000 : ℚ) < 100) := by norm_num
  unfold analysis_of exEmptyRisk amount_f velocity_avg_f safe_float safe_float_body
  unfold rule_based_explanation
  simp only [h1, h2, if_false]
  rfl

theorem exAmountAlert_trigger : alerts_trigger_pred exAmountAlert = true := by
  have ha : amount_f exAmountAlert = 2500 := rfl
  have h1 : (2000 : ℚ) < 2500 := by norm_num
  unfold alerts_trigger_pred
  rw [ha]
  simp [h1]

theorem windowRows_tx999_tx1000 :
    windowRows 0 [tx999, tx1000] = [tx999, tx1000] := by
  rw [windowRows_eq_filter]
  have h999 : inWindow 0 tx999.time = true := by decide
  have h1000 : inWindow 0 tx1000.time = true := by decide
  simp [List.filter_cons, h999, h1000]

theorem format6_999 : format6 999 = "999.000000" := by
  unfold format6
  rw [(by norm_num : ((999 : ℚ)) * 10 ^ 6 = ((999000000 : ℤ) : ℚ)), round_intCast]
  decide

theorem format6_1000 : format6 1000 = "1000.000000" := by
  unfold format6
  rw [(by norm_num : ((1000 : ℚ)) * 10 ^ 6 = ((1000000000 : ℤ) : ℚ)), round_intCast]
  decide

theorem tx999_meta : tx_meta tx999 = "2024-01-01T10:00:00|999.000000|L|M|S" := by
  unfold tx_meta make_meta_str
  have hf : format6 tx999.amount_f = "999.000000" := format6_999
  rw [hf]
  decide

theorem tx1000_meta : tx_meta tx1000 = "2024-01-01T10:00:00|1000.000000|L|M|S" := by
  unfold tx_meta make_meta_str
  have hf : format6 tx1000.amount_f = "1000.000000" := format6_1000
  rw [hf]
  decide

theorem latest_meta_999_1000 :
    latest_meta 0 [tx999, tx1000] = "2024-01-01T10:00:00|999.000000|L|M|S" := by
  unfold latest_meta
  rw [windowRows_tx999_tx1000]
  rw [List.map_cons, List.map_cons, List.map_nil, tx999_meta, tx1000_meta]
  decide

/-! ## Claim theorems -/

/-- C1: the claim states that an alert fires if and only if the latest
amount exceeds 2000, or the velocity exceeds 5000, or `risk_level` is
present and not semantically empty. The code's filter instead tests only
that `watchlist_risk` is non-null: on a joined record with amount 100,
velocity 100 and `risk_level = ""` the filter fires although the claim's
trigger condition is false. -/
theorem C1_trigger_fires_on_empty_risk :
    alerts_trigger_pred exEmptyRisk = true
      ∧ alerts_trigger_claimed exEmptyRisk = false :=
  ⟨exEmptyRisk_trigger, exEmptyRisk_not_claimed⟩

/-- C2: the claim states that every record forwarded to the sink has an
analysis beginning with `verdict=SUSPICIOUS`. The record `exEmptyRisk`
(amount 100, velocity 100, `risk_level = ""`) passes the trigger filter,
yet the rule engine's verdict for it is `OK`: the sink receives a
`verdict=OK` row. -/
theorem C2_ok_verdict_reaches_sink :
    (final_results [exEmptyRisk]).map FinalRow.analysis
      = ["verdict=OK || No suspicious indicators."] := by
  unfold final_results alerts_trigger
  rw [List.filter_cons_of_pos exEmptyRisk_trigger, List.filter_nil]
  rw [List.map_cons, List.map_nil, List.map_cons, List.map_nil]
  rw [exEmptyRisk_analysis]

/-- C3: for any transaction sequence of one account and any sliding window
(hop index `k`, i.e. the interval `[k·60, k·60 + 3600)` in seconds), the
`sum` and `count` reducer outputs equal the sum and count over exactly the
transactions whose timestamp falls in that half-open interval — stale or
double-counted contributions are impossible, and the right-hand side does
not depend on the hop decomposition. -/
theorem C3_window_correctness (txs : List Tx) (k : Int) :
    velocity_sum_1h k txs
        = ((txs.filter (fun x =>
            decide (k * 60 ≤ x.time) && decide (x.time < k * 60 + 3600))).map Tx.amount_f).sum
      ∧ velocity_count_1h k txs
        = (txs.filter (fun x =>
            decide (k * 60 ≤ x.time) && decide (x.time < k * 60 + 3600))).length := by
  have h := windowRows_eq_filter k txs
  unfold velocity_sum_1h velocity_count_1h
  rw [h]
  exact ⟨rfl, rfl⟩

/-- C4: the latest snapshot reported for a window is the row whose encoded
composite key is lexicographically maximal among the window's rows; in
particular, for two transactions with the same timestamp and amounts 999
and 1000, the reported latest amount is 999, because `"999.000000"` is
lexicographically greater than `"1000.000000"`. -/
theorem C4_latest_snapshot_tiebreak :
    (∀ (txs : List Tx) (k : Int), windowRows k txs ≠ [] →
      latest_meta k txs ∈ (windowRows k txs).map tx_meta ∧
        ∀ s ∈ (windowRows k txs).map tx_meta, pyStrLt (latest_meta k txs) s = false) ∧
    meta_get_amount (latest_meta 0 [tx999, tx1000]) = 999 := by
  constructor
  · intro txs k hne
    have hmapne : (windowRows k txs).map tx_meta ≠ [] := by
      simpa using hne
    exact latestOf_spec _ hmapne
  · rw [latest_meta_999_1000]
    unfold meta_get_amount
    have hsp : pySplitMax "2024-01-01T10:00:00|999.000000|L|M|S" '|' 4
        = ["2024-01-01T10:00:00", "999.000000", "L", "M", "S"] := by decide
    rw [hsp]
    have hfmt : ("999.000000" : String) = formatScaled 6 999000000 := by decide
    show (pyFloatParse "999.000000").getD 0 = 999
    rw [hfmt, pyFloatParse_formatScaled 6 (by norm_num) 999000000]
    norm_num

/-- C4 witness: the general tie-break statement applied to the concrete
two-transaction window. -/
theorem C4_latest_snapshot_tiebreak_witness :
    latest_meta 0 [tx999, tx1000] ∈ (windowRows 0 [tx999, tx1000]).map tx_meta ∧
      ∀ s ∈ (windowRows 0 [tx999, tx1000]).map tx_meta,
        pyStrLt (latest_meta 0 [tx999, tx1000]) s = false :=
  C4_latest_snapshot_tiebreak.1 [tx999, tx1000] 0 (by
    rw [windowRows_tx999_tx1000]
    simp)

/-- C5 counterexample: the claim says `velocity_avg_1h` equals
`sum / max(count, ε)`; at `sum = 5000, count = 1` the code's value
`5000 / (1 + 10⁻⁹)` differs from `5000 / max(1, ε) = 5000`. -/
theorem C5_not_max_denominator :
    velocity_avg_calc 5000 1 ≠ 5000 / max ((1 : Nat) : ℚ) epsQ := by
  unfold velocity_avg_calc epsQ
  rw [Nat.cast_one, max_eq_left (by norm_num : (1 : ℚ) / 1000000000 ≤ 1)]
  norm_num

/-- C5 (amended): `velocity_avg_1h` is `sum / (count + 1e-9)`; for the
empty window (`sum = 0, count = 0`) it is exactly `0`, the denominator is
positive for every count (no division-by-zero fault), and for a positive
count the value agrees with `sum / count` up to `sum · 10⁻⁹`. -/
theorem C5_velocity_avg_props :
    velocity_avg_calc 0 0 = 0 ∧
    (∀ c : Nat, (0 : ℚ) < (c : ℚ) + epsQ) ∧
    (∀ (sq : ℚ) (c : Nat), 1 ≤ c → 0 ≤ sq →
      velocity_avg_calc sq c ≤ sq / c ∧ sq / c - sq * epsQ ≤ velocity_avg_calc sq c) :=
  ⟨velocity_avg_calc_zero, velocity_denominator_pos, velocity_avg_calc_bounds⟩

/-- C5 witness: the bound instantiated at `sum = 6000, count = 1`. -/
theorem C5_velocity_avg_props_witness :
    velocity_avg_calc 6000 1 ≤ 6000 / ((1 : Nat) : ℚ)
      ∧ 6000 / ((1 : Nat) : ℚ) - 6000 * epsQ ≤ velocity_avg_calc 6000 1 :=
  C5_velocity_avg_props.2.2 6000 1 (by norm_num) (by norm_num)

/-- C6: the analysis string of every record is
`"verdict=<SUSPICIOUS|OK> || <explanation>"` with the fragments selected
in the contractual order amount → velocity → watchlist → merchant →
location and the fixed fallback if and only if no fragment applies
(`analysis_spec` spells this out and the implementation agrees with it);
the final output columns are time, account id, amount, velocity, risk and
analysis, in that order; and every emitted row is the projection of a
joined record that passed the trigger filter. -/
theorem C6_explanation_format_and_columns :
    (∀ (amount vel : ℚ) (cnt : Nat) (risk notes merchant location : Option String),
      rule_based_explanation amount vel cnt risk notes merchant location
        = analysis_spec amount vel cnt risk notes merchant location) ∧
    final_columns = ["time", "user_id", "amount", "velocity_avg_1h",
      "watchlist_risk", "analysis"] ∧
    (∀ (rows : List JoinedRecord) (r : FinalRow), r ∈ final_results rows →
      ∃ j ∈ rows, alerts_trigger_pred j = true ∧
        r = ⟨j.latest_time, j.user_id, amount_f j, velocity_avg_f j,
          j.watchlist_risk, analysis_of j⟩) := by
  refine ⟨rule_explanation_eq_spec, rfl, ?_⟩
  intro rows r hr
  unfold final_results alerts_trigger at hr
  rw [List.mem_map] at hr
  obtain ⟨j, hj, hrj⟩ := hr
  rw [List.mem_filter] at hj
  exact ⟨j, hj.1, hj.2, hrj.symm⟩

/-- C6 witness: the output-row characterisation applied to the concrete
alerting record. -/
theorem C6_explanation_format_and_columns_witness :
    ∃ j ∈ [exAmountAlert], alerts_trigger_pred j = true ∧
      (⟨exAmountAlert.latest_time, exAmountAlert.user_id, amount_f exAmountAlert,
        velocity_avg_f exAmountAlert, exAmountAlert.watchlist_risk,
        analysis_of exAmountAlert⟩ : FinalRow)
        = ⟨j.latest_time, j.user_id, amount_f j, velocity_avg_f j,
            j.watchlist_risk, analysis_of j⟩ :=
  C6_explanation_format_and_columns.2.2 [exAmountAlert] _ (by
    unfold final_results alerts_trigger
    rw [List.filter_cons_of_pos exAmountAlert_trigger, List.filter_nil]
    rw [List.map_cons, List.map_nil]
    exact List.mem_singleton.mpr rfl)

/-- C7: `safe_float` never propagates an exception: a null input and any
unparseable string yield exactly `0.0`, a parseable string (after
stripping surrounding whitespace) yields its parsed value, and a numeric
input passes through unchanged. -/
theorem C7_safe_float_never_fails :
    (∀ x : PyScalar, safe_float_run x = .ok (safe_float x)) ∧
    safe_float .none = 0 ∧
    (∀ str1 : String, safe_float (.str str1) = (pyFloatParse (pyStrip str1)).getD 0) ∧
    (∀ q : ℚ, safe_float (.num q) = q) :=
  safe_float_props

/-- C8: every window aggregate produces at least one joined record, and —
under the spec's stated assumption that the watchlist has at most one row
per `entity_id` — exactly one: null-padded when no watchlist row matches
the account, and carrying the matching row's risk and notes when one
does. -/
theorem C8_join_totality :
    (∀ (wl : List WatchEntry) (a : AggRow), 1 ≤ (full_context_row wl a).length) ∧
    (∀ (wl : List WatchEntry) (a : AggRow),
      (wl.map WatchEntry.entity_id).Nodup →
        (full_context_row wl a).length = 1 ∧
        ((∀ w ∈ wl, ¬ w.entity_id = a.user_id) →
          full_context_row wl a = [joinNull a]) ∧
        (∀ w ∈ wl, w.entity_id = a.user_id →
          full_context_row wl a = [joinRow a w])) := by
  constructor
  · intro wl a
    unfold full_context_row
    cases hms : wl.filter (fun w => w.entity_id = a.user_id) with
    | nil => simp [hms]
    | cons w ws => simp [hms]
  · intro wl a hnd
    refine ⟨?_, ?_, ?_⟩
    · unfold full_context_row
      cases hms : wl.filter (fun w => w.entity_id = a.user_id) with
      | nil => simp [hms]
      | cons w ws =>
        have hle := filter_key_len_le_one wl a.user_id hnd
        rw [hms] at hle
        simp only [List.length_cons] at hle
        have hws : ws = [] := by
          cases ws with
          | nil => rfl
          | cons w2 ws2 => simp at hle
        subst hws
        simp [hms]
    · intro hnone
      unfold full_context_row
      have hms : wl.filter (fun w => w.entity_id = a.user_id) = [] := by
        rw [List.filter_eq_nil_iff]
        intro w hw
        simp only [decide_eq_true_eq]
        exact hnone w hw
      simp [hms]
    · intro w hw heq
      unfold full_context_row
      rw [filter_key_single wl a.user_id hnd w hw heq]
      simp

/-- C8 witness: a one-entry watchlist with a non-matching account yields
exactly the null-padded record. -/
theorem C8_join_totality_witness :
    (full_context_row [⟨"u1", "HIGH", "fraud suspect"⟩]
        ⟨"u2", "2024-01-01T10:00:00", 50, "", "", "", 50, 1⟩).length = 1 ∧
      full_context_row [⟨"u1", "HIGH", "fraud suspect"⟩]
        ⟨"u2", "2024-01-01T10:00:00", 50, "", "", "", 50, 1⟩
        = [joinNull ⟨"u2", "2024-01-01T10:00:00", 50, "", "", "", 50, 1⟩] := by
  have h := C8_join_totality.2 [⟨"u1", "HIGH", "fraud suspect"⟩]
    ⟨"u2", "2024-01-01T10:00:00", 50, "", "", "", 50, 1⟩ (by simp)
  refine ⟨h.1, h.2.1 ?_⟩
  intro w hw
  rw [List.mem_singleton] at hw
  subst hw
  decide

/-- C9 counterexample: the claim says the explanation function tolerates a
missing or null value in any field, treating missing numerics as `0.0`;
in fact a null `amount` makes the very first comparison `amount > 2000`
raise `TypeError`. -/
theorem C9_null_amount_raises :
    rule_based_explanation_run Option.none (some 0) (some 0)
      Option.none Option.none Option.none Option.none = .error .typeError := rfl

/-- C9 (amended): with non-null numeric arguments (`amount`, `vel`,
`cnt`), the explanation function never raises, whatever combination of
null or missing text fields (`risk`, `notes`, `merchant`, `location`) it
receives, and returns the pure explanation string; null text fields are
treated as falsy/empty. In the pipeline the numeric arguments are always
non-null (they come from `safe_float` and the count reducer). -/
theorem C9_null_tolerance (a v : ℚ) (c : Nat)
    (risk notes merchant location : Option String) :
    rule_based_explanation_run (some a) (some v) (some c) risk notes merchant location
      = .ok (rule_based_explanation a v c risk notes merchant location) :=
  rule_run_eq_pure a v c risk notes merchant location

/-- C10 counterexample: the claim says fields containing the `"|"`
delimiter break the round-trip; a `"|"` inside the status field does not,
because the split is capped at four splits and returns the remainder —
including its pipes — as the status. -/
theorem C10_pipe_in_status_roundtrips :
    meta_get_status (make_meta_str "T" 1 "L" "M" "a|b") = "a|b" ∧
    meta_get_time (make_meta_str "T" 1 "L" "M" "a|b") = "T" ∧
    meta_get_amount (make_meta_str "T" 1 "L" "M" "a|b") = 1 ∧
    meta_get_location (make_meta_str "T" 1 "L" "M" "a|b") = "L" ∧
    meta_get_merchant (make_meta_str "T" 1 "L" "M" "a|b") = "M" := by
  have h := meta_roundtrip_exact "T" "L" "M" "a|b" 1 1000000 (by norm_num)
    (by decide) (by decide) (by decide)
  exact ⟨h.2.2.2.2, h.1, h.2.1, h.2.2.1, h.2.2.2.1⟩

/-- C10 (amended): for every transaction whose timestamp, location and
merchant contain no `"|"` — and for every amount — unpacking the
composite key built by `make_meta_str` returns the original timestamp,
location, merchant and status (the status even when it contains `"|"`,
because the split is capped at four splits) and returns the amount
rounded to 6 decimal places, that is `round(amount·10⁶)/10⁶`; the amount
is recovered exactly whenever it is an integer multiple of `10⁻⁶`. -/
theorem C10_composite_key_roundtrip (t loc merch stat : String) (q : ℚ)
    (ht : ∀ c ∈ t.data, ¬ c = '|') (hl : ∀ c ∈ loc.data, ¬ c = '|')
    (hm : ∀ c ∈ merch.data, ¬ c = '|') :
    meta_get_time (make_meta_str t q loc merch stat) = t ∧
    meta_get_amount (make_meta_str t q loc merch stat)
      = ((round (q * 10 ^ 6) : ℤ) : ℚ) / 10 ^ 6 ∧
    meta_get_location (make_meta_str t q loc merch stat) = loc ∧
    meta_get_merchant (make_meta_str t q loc merch stat) = merch ∧
    meta_get_status (make_meta_str t q loc merch stat) = stat ∧
    (∀ mi : ℤ, q * 10 ^ 6 = (mi : ℚ) →
      meta_get_amount (make_meta_str t q loc merch stat) = q) := by
  have h := meta_roundtrip t loc merch stat q ht hl hm
  exact ⟨h.1, h.2.1, h.2.2.1, h.2.2.2.1, h.2.2.2.2,
    fun mi hq => (meta_roundtrip_exact t loc merch stat q mi hq ht hl hm).2.1⟩

/-- C10 witness: the round-trip applied at a concrete transaction whose
amount 0.12345678 is not representable in 6 decimals (the amount comes
back as its 6-decimal rounding and the strings come back exactly), and at
one of amount 2.5, which is representable and comes back exactly. -/
theorem C10_composite_key_roundtrip_witness :
    meta_get_time (make_meta_str "2024-01-01T10:00:00"
        (12345678 / 100000000) "Delhi" "Amazon" "ok") = "2024-01-01T10:00:00" ∧
    meta_get_amount (make_meta_str "2024-01-01T10:00:00"
        (12345678 / 100000000) "Delhi" "Amazon" "ok")
      = ((round ((12345678 / 100000000 : ℚ) * 10 ^ 6) : ℤ) : ℚ) / 10 ^ 6 ∧
    meta_get_status (make_meta_str "2024-01-01T10:00:00"
        (12345678 / 100000000) "Delhi" "Amazon" "ok") = "ok" ∧
    meta_get_amount (make_meta_str "2024-01-01T10:00:00" (5 / 2) "Delhi" "Amazon" "ok")
      = 5 / 2 :=
  have h1 := C10_composite_key_roundtrip "2024-01-01T10:00:00" "Delhi" "Amazon" "ok"
    (12345678 / 100000000) (by decide) (by decide) (by decide)
  have h2 := C10_composite_key_roundtrip "2024-01-01T10:00:00" "Delhi" "Amazon" "ok"
    (5 / 2) (by decide) (by decide) (by decide)
  ⟨h1.1, h1.2.1, h1.2.2.2.2.1, h2.2.2.2.2.2 2500000 (by norm_num)⟩

end FinanceBot
